import Mathlib

/-!
Verification development for the lima/premali userspace GPU driver core:
the Symbol Resolution and Job Assembly subsystem.

The repository excerpt under src/ contains the data model for shader symbols
(src/premali/lib/symbols.h) and the illustrative driver-API caller
(src/limadriver/limare/tests/triangle_quad/limare.c).  The bodies of the
driver-core operations (symbol table creation and lookup, program linking,
attribute and uniform binding, the job-assembler state machine, buffer
allocation and swap) are declared and called from those files but their .c
implementations are not part of the excerpt; those operations are therefore
modelled from the specification, faithful to its words, and the data model is
taken from symbols.h.
-/

set_option maxHeartbeats 1000000

namespace LimaDriver

/-- Error taxonomy of the driver core (spec section 7). -/
inductive DriverError where
  | DuplicateSymbolError
  | SymbolNotFoundError
  | KindMismatchError
  | LinkError
  | InvalidStateError
  | UnboundProgramError
  | AllocationError
  | SubmissionError
  | ExecutionError
deriving DecidableEq, Repr

/-- From src/premali/lib/symbols.h: `enum symbol_type`, the three symbol
kinds, in declaration order. -/
inductive symbol_type where
  | SYMBOL_UNIFORM
  | SYMBOL_ATTRIBUTE
  | SYMBOL_VARYING
deriving DecidableEq, Repr

/-- From src/premali/lib/symbols.h: `struct symbol`.  `address` is the
hardware location once bound (`void *address`, modelled as an optional
numeric address), `physical` the flag saying the location is a physical
address (`int physical`), and `data` the backing byte buffer
(`void *data`, modelled as a list of byte values). -/
structure Symbol where
  name : String
  type : symbol_type
  element_size : Nat
  element_entries : Nat
  element_count : Nat
  address : Option Nat
  physical : Bool
  data : List Nat
deriving DecidableEq, Repr

/-- The exact byte footprint of a symbol (spec section 3 invariant). -/
def footprint (s : Symbol) : Nat :=
  s.element_size * s.element_entries * s.element_count

/-- Modelled from the spec: the body of `symbol_create` (declared in
src/premali/lib/symbols.h; its .c implementation is not in the excerpt).
A fresh symbol carries the given metadata, no hardware address yet, the
physical flag clear, and backing data taken from `data`: a private copy
sized to the computed footprint when `copy` is set, the borrowed caller
buffer otherwise. -/
def symbol_create (name : String) (type : symbol_type)
    (element_size element_entries count : Nat)
    (data : List Nat) (copy : Bool) : Symbol :=
  { name := name
    type := type
    element_size := element_size
    element_entries := element_entries
    element_count := count
    address := none
    physical := false
    data := if copy then data.take (element_size * element_entries * count) else data }

/-- A symbol table is an ordered list of symbols (spec section 3). -/
abbrev SymbolTable := List Symbol

/-- First symbol with the given name, if any. -/
def findName (t : SymbolTable) (n : String) : Option Symbol :=
  t.find? (fun s => s.name == n)

/-- Modelled from the spec: table-level `create` (spec section 4.1): appends
a freshly created symbol, or fails with `DuplicateSymbolError` when the name
is already present. -/
def table_create (t : SymbolTable) (name : String) (type : symbol_type)
    (element_size element_entries count : Nat) (data : List Nat) (copy : Bool) :
    Except DriverError SymbolTable :=
  match findName t name with
  | some _ => .error .DuplicateSymbolError
  | none => .ok (t ++ [symbol_create name type element_size element_entries count data copy])

/-- Runs `table_create` keeping the table unchanged on failure. -/
def table_create_run (t : SymbolTable) (name : String) (type : symbol_type)
    (element_size element_entries count : Nat) (data : List Nat) (copy : Bool) :
    SymbolTable × Option DriverError :=
  match table_create t name type element_size element_entries count data copy with
  | .ok t2 => (t2, none)
  | .error e => (t, some e)

/-- Modelled from the spec: `lookup` (spec section 4.1): the symbol with the
given name, or `SymbolNotFoundError`. -/
def lookup (t : SymbolTable) (name : String) : Except DriverError Symbol :=
  match findName t name with
  | some s => .ok s
  | none => .error .SymbolNotFoundError

/-- Replace the first symbol named `n` by its image under `g`, leaving the
rest of the table untouched. -/
def updateSymbol (t : SymbolTable) (n : String) (g : Symbol → Symbol) : SymbolTable :=
  match t with
  | [] => []
  | x :: xs => if x.name == n then g x :: xs else x :: updateSymbol xs n g

/-- Modelled from the spec: merging two same-named symbols during linking
(spec section 4.2).  Attribute wins over Varying; two Uniforms merge exactly
when their footprints match; otherwise kinds and footprints must agree. -/
def mergeSymbol (a b : Symbol) : Except DriverError Symbol :=
  if a.type = .SYMBOL_ATTRIBUTE ∧ b.type = .SYMBOL_VARYING then .ok a
  else if a.type = .SYMBOL_VARYING ∧ b.type = .SYMBOL_ATTRIBUTE then .ok b
  else if a.type = b.type ∧ footprint a = footprint b then .ok a
  else .error .LinkError

/-- Modelled from the spec: inserting one fragment-stage symbol into the
accumulated merged table: append when the name is fresh, otherwise merge
with the existing entry under the tie-break rules. -/
def linkInsert (t : SymbolTable) (f : Symbol) : Except DriverError SymbolTable :=
  match findName t f.name with
  | none => .ok (t ++ [f])
  | some a =>
    match mergeSymbol a f with
    | .ok u => .ok (updateSymbol t f.name (fun _ => u))
    | .error e => .error e

/-- Modelled from the spec: `link(vertex_symbols, fragment_symbols)`
(spec section 4.2): fold every fragment-stage symbol into the vertex-stage
table, failing with `LinkError` on any incompatible collision. -/
def link (vs fs : SymbolTable) : Except DriverError SymbolTable :=
  fs.foldlM linkInsert vs

/-- Buffer usage roles (spec section 3). -/
inductive BufferRole where
  | Vertex
  | Uniform
  | Framebuffer
deriving DecidableEq, Repr

/-- A Buffer Manager memory region (spec section 3): capacity, resolved
virtual and physical addresses, zero-initialized backing memory. -/
structure Buffer where
  role : BufferRole
  size : Nat
  virtual_address : Nat
  physical_address : Nat
  data : List Nat
deriving DecidableEq, Repr

/-- The Buffer Manager state: the buffers it owns, in allocation order. -/
structure BufferManager where
  buffers : List Buffer
deriving DecidableEq, Repr

/-- Modelled from the spec: `allocate(role, size)` (spec section 4.3).  The
external kernel interface is passed as a function from the requested size to
either a (virtual address, physical address) pair or the error it reports.
On kernel failure the error is passed through unchanged and the manager is
left exactly as it was: no buffer is registered. -/
def allocate (kernel : Nat → Except DriverError (Nat × Nat))
    (bm : BufferManager) (role : BufferRole) (size : Nat) :
    BufferManager × Option DriverError :=
  match kernel size with
  | .error e => (bm, some e)
  | .ok (va, pa) =>
    (⟨bm.buffers ++ [⟨role, size, va, pa, List.replicate size 0⟩]⟩, none)

/-- Job Assembler states (spec section 4.5). -/
inductive JAState where
  | Idle
  | Configuring
  | FrameOpen
  | Flushing
deriving DecidableEq, Repr

/-- An attribute binding recorded by the Binder (spec section 3): name,
element type, consumed component count, caller-specified stride, and the
physical address of the registered Vertex-role buffer. -/
structure AttributeBinding where
  name : String
  element_type : Nat
  entries : Nat
  stride : Nat
  physical_address : Nat
deriving DecidableEq, Repr

/-- The bindings in force at one moment: live attribute bindings plus the
current uniform values (name and backing bytes). -/
structure Bindings where
  attributes : List AttributeBinding
  uniforms : List (String × List Nat)
deriving DecidableEq, Repr

/-- One recorded draw command (spec section 3): topology, vertex range, and
the snapshot of all bindings taken when the draw was appended. -/
structure DrawCommand where
  primitive_topology : Nat
  first : Nat
  count : Nat
  snapshot : Bindings
deriving DecidableEq, Repr

/-- Hardware completion report from the kernel submission interface
(spec section 6). -/
inductive CompletionStatus where
  | Success
  | Fault
  | Timeout
deriving DecidableEq, Repr

/-- The driver context: job-assembler state, the bound program (link flag
and merged symbol table), live attribute bindings, recorded draw commands,
the double-buffered framebuffer pair, and the recorded viewport/clear
parameters. -/
structure LimareState where
  ja_state : JAState
  linked : Bool
  table : SymbolTable
  attributes : List AttributeBinding
  draws : List DrawCommand
  front_buffer : Nat
  back_buffer : Nat
  viewport : Option (Nat × Nat × Nat)
deriving DecidableEq, Repr

/-- Modelled from the spec: `limare_init` — a fresh context in `Idle` with
no program, no bindings, no recorded draws, buffer 0 in front. -/
def limare_init : LimareState :=
  { ja_state := .Idle
    linked := false
    table := []
    attributes := []
    draws := []
    front_buffer := 0
    back_buffer := 1
    viewport := none }

/-- Modelled from the spec: `state_setup(width, height, clear_color)`
(spec section 4.5): valid only in `Idle`/`Configuring`; records viewport and
clear parameters; `InvalidStateError` once a frame is open. -/
def limare_state_setup (st : LimareState) (w h clear : Nat) :
    LimareState × Option DriverError :=
  match st.ja_state with
  | .Idle => ({ st with ja_state := .Configuring, viewport := some (w, h, clear) }, none)
  | .Configuring => ({ st with ja_state := .Configuring, viewport := some (w, h, clear) }, none)
  | _ => (st, some .InvalidStateError)

/-- Modelled from the spec: `limare_link` (spec section 4.2): merge the two
stage tables; on success the program becomes `Linked` with the merged table,
on failure it stays unlinked and unusable. -/
def limare_link (st : LimareState) (vs fs : SymbolTable) :
    LimareState × Option DriverError :=
  match link vs fs with
  | .ok m => ({ st with table := m, linked := true }, none)
  | .error e => (st, some e)

/-- Replace the binding with the same name (last write wins), or append a
new one (spec section 4.4). -/
def bindingsReplace (bs : List AttributeBinding) (b : AttributeBinding) :
    List AttributeBinding :=
  if bs.any (fun x => x.name == b.name) then
    bs.map (fun x => if x.name == b.name then b else x)
  else bs ++ [b]

/-- Modelled from the spec: `bind_attribute` / `limare_attribute_pointer`
(spec section 4.4): look the name up in the merged table
(`SymbolNotFoundError` when absent, `KindMismatchError` when not an
Attribute), store the physical address, stride and component layout into the
binding (last write wins), and record the symbol's resolved physical
location. -/
def limare_attribute_pointer (st : LimareState) (name : String)
    (element_type entries stride physical_address : Nat) :
    LimareState × Option DriverError :=
  match findName st.table name with
  | none => (st, some .SymbolNotFoundError)
  | some s =>
    if s.type = .SYMBOL_ATTRIBUTE then
      ({ st with
          table := updateSymbol st.table name
            (fun x => { x with address := some physical_address, physical := true })
          attributes := bindingsReplace st.attributes
            ⟨name, element_type, entries, stride, physical_address⟩ }, none)
    else (st, some .KindMismatchError)

/-- Little-endian byte image of one scalar, `element_size` bytes wide. -/
def scalarBytes (element_size v : Nat) : List Nat :=
  (List.range element_size).map (fun i => v / 256 ^ i % 256)

/-- Conversion of a list of scalar values to the byte layout dictated by the
symbol's declared `element_size` (spec section 4.4). -/
def convertData (element_size : Nat) (vals : List Nat) : List Nat :=
  (vals.map (scalarBytes element_size)).flatten

/-- Modelled from the spec: `attach_uniform` / `limare_uniform_attach`
(spec section 4.4): look the name up (`SymbolNotFoundError` when absent,
`KindMismatchError` when not a Uniform), validate `entries` against the
symbol's `element_entries`, then overwrite the symbol's backing data with
`data` converted per its declared `element_size`. -/
def limare_uniform_attach (st : LimareState) (name : String) (entries : Nat)
    (data : List Nat) : LimareState × Option DriverError :=
  match findName st.table name with
  | none => (st, some .SymbolNotFoundError)
  | some s =>
    if s.type ≠ .SYMBOL_UNIFORM then (st, some .KindMismatchError)
    else if entries ≠ s.element_entries then (st, some .KindMismatchError)
    else
      ({ st with
          table := updateSymbol st.table name
            (fun x => { x with data := convertData x.element_size data }) }, none)

/-- The live uniform values of a table: every Uniform symbol's name paired
with its current backing bytes. -/
def uniformValues (t : SymbolTable) : List (String × List Nat) :=
  (t.filter (fun s => s.type == .SYMBOL_UNIFORM)).map (fun s => (s.name, s.data))

/-- All bindings currently in force in the context. -/
def currentBindings (st : LimareState) : Bindings :=
  { attributes := st.attributes, uniforms := uniformValues st.table }

/-- Modelled from the spec: `frame_new()` (spec section 4.5): transitions
`Configuring` to `FrameOpen` and resets the per-frame draw-command
sequence; bindings made while configuring stay in force. -/
def limare_frame_new (st : LimareState) : LimareState × Option DriverError :=
  if st.ja_state = .Configuring then
    ({ st with ja_state := .FrameOpen, draws := [] }, none)
  else (st, some .InvalidStateError)

/-- Modelled from the spec: `draw_arrays(primitive_topology, first, count)`
(spec section 4.5): valid only in `FrameOpen` (`InvalidStateError`
otherwise); requires a `Linked` program with at least one attribute binding
(`UnboundProgramError` otherwise); appends a draw command that snapshots all
current bindings at append time. -/
def limare_draw_arrays (st : LimareState) (prim first count : Nat) :
    LimareState × Option DriverError :=
  if st.ja_state ≠ .FrameOpen then (st, some .InvalidStateError)
  else if st.linked = false ∨ st.attributes = [] then (st, some .UnboundProgramError)
  else
    ({ st with draws := st.draws ++ [⟨prim, first, count, currentBindings st⟩] }, none)

/-- Modelled from the spec: `frame_flush()` (spec section 4.5): valid only
in `FrameOpen`; hands the job to the kernel and blocks until the reported
completion; the context returns to `Idle` (also on a hardware fault or
timeout, which surface as `ExecutionError`). -/
def limare_frame_flush (st : LimareState) (completion : CompletionStatus) :
    LimareState × Option DriverError :=
  if st.ja_state ≠ .FrameOpen then (st, some .InvalidStateError)
  else
    match completion with
    | .Success => ({ st with ja_state := .Idle }, none)
    | .Fault => ({ st with ja_state := .Idle }, some .ExecutionError)
    | .Timeout => ({ st with ja_state := .Idle }, some .ExecutionError)

/-- Modelled from the spec: `buffer_swap` (spec section 4.3): only allowed
once the preceding flush has returned (the context is back in `Idle`);
exchanges the front and back framebuffer roles.  An attempt while a frame is
still in flight is rejected with `InvalidStateError` and performs no swap. -/
def limare_buffer_swap (st : LimareState) : LimareState × Option DriverError :=
  if st.ja_state = .Idle then
    ({ st with front_buffer := st.back_buffer, back_buffer := st.front_buffer }, none)
  else (st, some .InvalidStateError)

/-- One driver-API call, with its arguments. -/
inductive Cmd where
  | state_setup (w h clear : Nat)
  | link (vs fs : SymbolTable)
  | attribute_pointer (name : String) (element_type entries stride physical_address : Nat)
  | frame_new
  | uniform_attach (name : String) (entries : Nat) (data : List Nat)
  | draw_arrays (prim first count : Nat)
  | frame_flush (completion : CompletionStatus)
  | buffer_swap
deriving DecidableEq, Repr

/-- Execute one driver-API call against the context. -/
def step (st : LimareState) : Cmd → LimareState × Option DriverError
  | .state_setup w h c => limare_state_setup st w h c
  | .link vs fs => limare_link st vs fs
  | .attribute_pointer n et en str pa => limare_attribute_pointer st n et en str pa
  | .frame_new => limare_frame_new st
  | .uniform_attach n en d => limare_uniform_attach st n en d
  | .draw_arrays p f c => limare_draw_arrays st p f c
  | .frame_flush comp => limare_frame_flush st comp
  | .buffer_swap => limare_buffer_swap st

/-- Execute a sequence of driver-API calls (failed calls leave the context
unchanged, as each operation returns it unmodified on error). -/
def run (st : LimareState) (cs : List Cmd) : LimareState :=
  cs.foldl (fun s c => (step s c).1) st

/-! ## Basic lemmas about symbol tables -/

theorem findName_cons (x : Symbol) (xs : SymbolTable) (n : String) :
    findName (x :: xs) n = if x.name == n then some x else findName xs n := by
  simp only [findName, List.find?_cons]
  cases x.name == n <;> simp

theorem findName_some_name {t : SymbolTable} {n : String} {a : Symbol}
    (h : findName t n = some a) : a.name = n := by
  have := List.find?_some h
  simpa using this

theorem findName_some_mem {t : SymbolTable} {n : String} {a : Symbol}
    (h : findName t n = some a) : a ∈ t :=
  List.mem_of_find?_eq_some h

theorem findName_append_some {t₁ : SymbolTable} (t₂ : SymbolTable) {n : String}
    {a : Symbol} (h : findName t₁ n = some a) : findName (t₁ ++ t₂) n = some a := by
  unfold findName at h ⊢
  rw [List.find?_append, h]; rfl

theorem findName_append_none {t₁ : SymbolTable} (t₂ : SymbolTable) {n : String}
    (h : findName t₁ n = none) : findName (t₁ ++ t₂) n = findName t₂ n := by
  unfold findName at h ⊢
  rw [List.find?_append, h]; rfl

theorem findName_updateSymbol (t : SymbolTable) (n : String) (g : Symbol → Symbol)
    (hg : ∀ s, (s.name == n) = true → ((g s).name == n) = true) :
    findName (updateSymbol t n g) n = Option.map g (findName t n) := by
  induction t with
  | nil => rfl
  | cons x xs ih =>
    cases hx : x.name == n with
    | true =>
      simp [updateSymbol, hx, findName_cons, hg x hx]
    | false =>
      simp [updateSymbol, hx, findName_cons, ih]

theorem findName_updateSymbol_ne (t : SymbolTable) (n m : String)
    (g : Symbol → Symbol)
    (hg : ∀ s, (s.name == n) = true → ((g s).name == n) = true)
    (hnm : (n == m) = false) :
    findName (updateSymbol t n g) m = findName t m := by
  induction t with
  | nil => rfl
  | cons x xs ih =>
    cases hx : x.name == n with
    | true =>
      have hxn : x.name = n := by simpa using hx
      have hgx : (g x).name = n := by simpa using hg x hx
      have h₁ : ((g x).name == m) = false := by
        rw [hgx]; exact hnm
      have h₂ : (x.name == m) = false := by
        rw [hxn]; exact hnm
      simp [updateSymbol, hx, findName_cons, h₁, h₂]
    | false =>
      simp [updateSymbol, hx, findName_cons, ih]

theorem mem_updateSymbol {t : SymbolTable} {n : String} {g : Symbol → Symbol}
    {s' : Symbol} (h : s' ∈ updateSymbol t n g) :
    s' ∈ t ∨ ∃ s, findName t n = some s ∧ s' = g s := by
  induction t with
  | nil => simp [updateSymbol] at h
  | cons x xs ih =>
    cases hx : x.name == n with
    | true =>
      simp only [updateSymbol, hx, if_pos, List.mem_cons] at h
      rcases h with h | h
      · exact Or.inr ⟨x, by simp [findName_cons, hx], h⟩
      · exact Or.inl (List.mem_cons_of_mem x h)
    | false =>
      simp only [updateSymbol, hx, Bool.false_eq_true, if_false, List.mem_cons] at h
      rcases h with h | h
      · exact Or.inl (by simp [h])
      · rcases ih h with h' | ⟨s, hs, hs'⟩
        · exact Or.inl (List.mem_cons_of_mem x h')
        · exact Or.inr ⟨s, by simp [findName_cons, hx, hs], hs'⟩

/-! ## C2 and C3: symbol table create and lookup -/

/-- C2: for every symbol name inserted into a symbol table via create with
some kind, element size, element entries and element count, a subsequent
lookup with that same name returns a Symbol whose kind, element size,
element entries and element count are identical to the values given at
creation. -/
theorem create_lookup_roundtrip (t : SymbolTable) (name : String)
    (ty : symbol_type) (es ee cnt : Nat) (d : List Nat) (cp : Bool)
    (t2 : SymbolTable)
    (h : table_create t name ty es ee cnt d cp = .ok t2) :
    ∃ s, lookup t2 name = .ok s ∧ s.type = ty ∧ s.element_size = es ∧
      s.element_entries = ee ∧ s.element_count = cnt := by
  unfold table_create at h
  cases hfind : findName t name with
  | some s => rw [hfind] at h; exact absurd h (by simp)
  | none =>
    rw [hfind] at h
    have ht2 : t2 = t ++ [symbol_create name ty es ee cnt d cp] := by
      cases h; rfl
    refine ⟨symbol_create name ty es ee cnt d cp, ?_, rfl, rfl, rfl, rfl⟩
    have : findName t2 name = some (symbol_create name ty es ee cnt d cp) := by
      rw [ht2, findName_append_none _ hfind, findName_cons]
      simp [symbol_create]
    simp [lookup, this]

/-- Witness for C2 at a concrete table and symbol. -/
theorem create_lookup_roundtrip_witness :
    ∃ s, lookup ((table_create [] "uColor" .SYMBOL_UNIFORM 4 4 1 [] false).toOption.getD [])
        "uColor" = .ok s ∧
      s.type = .SYMBOL_UNIFORM ∧ s.element_size = 4 ∧
      s.element_entries = 4 ∧ s.element_count = 1 :=
  create_lookup_roundtrip [] "uColor" .SYMBOL_UNIFORM 4 4 1 [] false _ rfl

/-- C3: for every symbol table and every name already present in it, create
with that name fails with `DuplicateSymbolError` and the table (its size and
its entries) is unchanged after the failed attempt. -/
theorem create_duplicate_rejected (t : SymbolTable) (name : String)
    (ty : symbol_type) (es ee cnt : Nat) (d : List Nat) (cp : Bool)
    (s : Symbol) (h : findName t name = some s) :
    table_create_run t name ty es ee cnt d cp = (t, some .DuplicateSymbolError) := by
  simp [table_create_run, table_create, h]

/-- Witness for C3 at a concrete one-entry table. -/
theorem create_duplicate_rejected_witness :
    table_create_run [symbol_create "uColor" .SYMBOL_UNIFORM 4 4 1 [] false]
        "uColor" .SYMBOL_ATTRIBUTE 2 3 5 [] true =
      ([symbol_create "uColor" .SYMBOL_UNIFORM 4 4 1 [] false],
        some .DuplicateSymbolError) :=
  create_duplicate_rejected _ "uColor" .SYMBOL_ATTRIBUTE 2 3 5 [] true
    (symbol_create "uColor" .SYMBOL_UNIFORM 4 4 1 [] false) (by decide)

/-! ## Demo program material (from the triangle_quad caller) -/

/-- The vertex-stage attribute of the triangle_quad demo: vec4 aPosition. -/
def aPositionSym : Symbol := symbol_create "aPosition" .SYMBOL_ATTRIBUTE 4 4 1 [] false

/-- The fragment-stage uniform of the triangle_quad demo: vec4 uColor. -/
def uColorSym : Symbol := symbol_create "uColor" .SYMBOL_UNIFORM 4 4 1 [] false

/-- The demo context right after state setup and linking, before any frame. -/
def demoConfigured : LimareState :=
  run limare_init [.state_setup 0 0 0xFF505050, .link [aPositionSym] [uColorSym]]

/-! ## C5: attach_uniform round-trip -/

/-- C5: for every linked program, every Uniform symbol in its merged table
and every data value whose entry count matches the symbol's
`element_entries`, `attach_uniform` followed immediately by reading the
symbol's backing region yields exactly the bytes that were written,
converted per the symbol's `element_size`. -/
theorem attach_uniform_roundtrip (st : LimareState) (n : String) (s : Symbol)
    (d : List Nat) (hlink : st.linked = true)
    (hfind : findName st.table n = some s)
    (hu : s.type = .SYMBOL_UNIFORM) (hd : d.length = s.element_entries) :
    ∃ st', limare_uniform_attach st n s.element_entries d = (st', none) ∧
      findName st'.table n = some { s with data := convertData s.element_size d } ∧
      st'.draws = st.draws ∧ st'.attributes = st.attributes ∧
      st'.ja_state = st.ja_state := by
  refine ⟨{ st with table := updateSymbol st.table n (fun x => { x with data := convertData x.element_size d }) }, ?_, ?_, rfl, rfl, rfl⟩
  · simp [limare_uniform_attach, hfind, hu]
  · have htab : ({ st with table := updateSymbol st.table n (fun x => { x with data := convertData x.element_size d }) } : LimareState).table = updateSymbol st.table n (fun x => { x with data := convertData x.element_size d }) := rfl
    rw [htab, findName_updateSymbol st.table n (fun x => { x with data := convertData x.element_size d }) (fun x hx => hx), hfind]
    rfl

/-- Witness for C5: attaching the triangle color to uColor in the configured
demo context. -/
theorem attach_uniform_roundtrip_witness :
    ∃ st', limare_uniform_attach demoConfigured "uColor"
        uColorSym.element_entries [0, 1, 0, 1] = (st', none) ∧
      findName st'.table "uColor" =
        some { uColorSym with data := convertData uColorSym.element_size [0, 1, 0, 1] } ∧
      st'.draws = demoConfigured.draws ∧ st'.attributes = demoConfigured.attributes ∧
      st'.ja_state = demoConfigured.ja_state :=
  attach_uniform_roundtrip demoConfigured "uColor" uColorSym [0, 1, 0, 1]
    (by decide) (by decide) rfl (by decide)

/-! ## C6: draw_arrays state and program errors -/

/-- C6: calling draw_arrays when no frame has been opened fails with
`InvalidStateError`; calling it in an open frame while the bound program is
not linked or has no attribute binding fails with `UnboundProgramError`. -/
theorem draw_arrays_state_errors :
    (∀ st p f c, (st.ja_state = .Idle ∨ st.ja_state = .Configuring) →
      limare_draw_arrays st p f c = (st, some .InvalidStateError)) ∧
    (∀ st p f c, st.ja_state = .FrameOpen →
      (st.linked = false ∨ st.attributes = []) →
      limare_draw_arrays st p f c = (st, some .UnboundProgramError)) := by
  constructor
  · rintro st p f c (h | h) <;> simp [limare_draw_arrays, h]
  · rintro st p f c h (hb | hb) <;> simp [limare_draw_arrays, h, hb]

/-- Witness for C6: a fresh context rejects draws with `InvalidStateError`;
an open frame with an unlinked program rejects them with
`UnboundProgramError`. -/
theorem draw_arrays_state_errors_witness :
    limare_draw_arrays limare_init 4 0 3 = (limare_init, some .InvalidStateError) ∧
    limare_draw_arrays { limare_init with ja_state := .FrameOpen } 4 0 3 =
      ({ limare_init with ja_state := .FrameOpen }, some .UnboundProgramError) :=
  ⟨draw_arrays_state_errors.1 limare_init 4 0 3 (Or.inl rfl),
   draw_arrays_state_errors.2 { limare_init with ja_state := .FrameOpen } 4 0 3 rfl
     (Or.inl rfl)⟩

/-! ## C7: buffer_swap only after flush has returned -/

/-- C7: a buffer swap attempted while a frame is still in flight (the
preceding flush has not returned, the context is not back in `Idle`) is
rejected with an error and performs no swap; a swap only ever succeeds in
`Idle`; and once `frame_flush` has returned successfully, the swap succeeds
and exchanges the front and back buffers. -/
theorem buffer_swap_requires_flush :
    (∀ st, st.ja_state ≠ .Idle →
      limare_buffer_swap st = (st, some .InvalidStateError)) ∧
    (∀ st r, limare_buffer_swap st = (r, none) → st.ja_state = .Idle) ∧
    (∀ st st', st.ja_state = .FrameOpen →
      limare_frame_flush st .Success = (st', none) →
      limare_buffer_swap st' =
        ({ st' with front_buffer := st'.back_buffer, back_buffer := st'.front_buffer }, none)) := by
  refine ⟨?_, ?_, ?_⟩
  · intro st h
    simp [limare_buffer_swap, h]
  · intro st r h
    by_cases hst : st.ja_state = .Idle
    · exact hst
    · simp [limare_buffer_swap, hst] at h
  · intro st st' h h2
    simp [limare_frame_flush, h] at h2
    have hidle : st'.ja_state = .Idle := by rw [← h2]
    simp [limare_buffer_swap, hidle]

/-- Witness for C7: a context with an open frame rejects the swap; after a
successful flush the swap goes through. -/
theorem buffer_swap_requires_flush_witness :
    limare_buffer_swap { limare_init with ja_state := .FrameOpen } =
      ({ limare_init with ja_state := .FrameOpen }, some .InvalidStateError) ∧
    limare_buffer_swap { limare_init with ja_state := .Idle } =
      ({ limare_init with ja_state := .Idle, front_buffer := 1, back_buffer := 0 },
        none) ∧
    limare_buffer_swap (limare_frame_flush { limare_init with ja_state := .FrameOpen }
        .Success).1 =
      ({ limare_init with ja_state := .Idle, front_buffer := 1, back_buffer := 0 },
        none) := by
  refine ⟨buffer_swap_requires_flush.1 _ (by decide), by decide, ?_⟩
  have := buffer_swap_requires_flush.2.2 { limare_init with ja_state := .FrameOpen }
    { limare_init with ja_state := .Idle } rfl rfl
  simpa using this

/-! ## C8: allocation failure leaves the Buffer Manager untouched -/

/-- C8: when the external kernel interface cannot satisfy an allocation
request, the Buffer Manager fails with the kernel's `AllocationError` passed
through unchanged, registers no buffer, and its state is exactly what it was
before the call. -/
theorem allocate_failure_no_mutation
    (kernel : Nat → Except DriverError (Nat × Nat)) (bm : BufferManager)
    (role : BufferRole) (size : Nat)
    (h : kernel size = .error .AllocationError) :
    allocate kernel bm role size = (bm, some .AllocationError) := by
  simp [allocate, h]

/-- Witness for C8: an always-failing kernel interface and an empty
manager. -/
theorem allocate_failure_no_mutation_witness :
    allocate (fun _ => .error .AllocationError) ⟨[]⟩ .Vertex 64 =
      (⟨[]⟩, some .AllocationError) :=
  allocate_failure_no_mutation (fun _ => .error .AllocationError) ⟨[]⟩ .Vertex 64 rfl

/-! ## C1: draw commands snapshot the bindings at append time -/

/-- The call sequence of the triangle_quad demo (limare.c): state setup,
link, bind aPosition with stride 7, open a frame, attach the triangle
color, draw a triangle list over vertices 0 to 3, attach the quad color,
draw a triangle strip over vertices 3 to 7, flush.  Topology values are the
GLES enum values (GL_TRIANGLES 4, GL_TRIANGLE_STRIP 5); the color scalars
stand for the float values 0.0 and 1.0. -/
def demoTrace : List Cmd :=
  [.state_setup 0 0 0xFF505050,
   .link [aPositionSym] [uColorSym],
   .attribute_pointer "aPosition" 0 3 7 4096,
   .frame_new,
   .uniform_attach "uColor" 4 [0, 1, 0, 1],
   .draw_arrays 4 0 3,
   .uniform_attach "uColor" 4 [1, 0, 0, 1],
   .draw_arrays 5 3 4,
   .frame_flush .Success]

/-- The demo context after the whole sequence has run. -/
def demoFinal : LimareState := run limare_init demoTrace

/-- The demo context right before the first draw call. -/
def demoFrameReady : LimareState := run limare_init (demoTrace.take 5)

/-- C1: every draw_arrays call appends a draw command snapshotting all
current bindings at append time; attach_uniform never alters already
recorded draw commands; and in the demo sequence the first recorded draw's
snapshot still holds the triangle color for uColor after the quad color was
attached and the frame flushed, while the second holds the quad color. -/
theorem draw_snapshot_immutable :
    (∀ st n en d, ((limare_uniform_attach st n en d).1).draws = st.draws) ∧
    (∀ st p f c r, limare_draw_arrays st p f c = (r, none) →
      r.draws = st.draws ++ [⟨p, f, c, currentBindings st⟩]) ∧
    (demoFinal.draws.map (fun dc => dc.snapshot.uniforms) =
      [[("uColor", convertData 4 [0, 1, 0, 1])],
       [("uColor", convertData 4 [1, 0, 0, 1])]]) := by
  refine ⟨?_, ?_, ?_⟩
  · intro st n en d
    unfold limare_uniform_attach
    cases hfind : findName st.table n with
    | none => rfl
    | some s =>
      by_cases h1 : s.type ≠ .SYMBOL_UNIFORM
      · simp [h1]
      · by_cases h2 : en ≠ s.element_entries
        · simp [h1, h2]
        · simp [h1, h2]
  · intro st p f c r h
    unfold limare_draw_arrays at h
    by_cases h1 : st.ja_state ≠ .FrameOpen
    · simp [h1] at h
    · by_cases h2 : st.linked = false ∨ st.attributes = []
      · simp [h1, h2] at h
      · simp [h1, h2] at h
        rw [← h]
  · decide

/-- Witness for C1: attaching a uniform in the configured demo context
leaves the recorded draws untouched, and the demo's first draw call appends
exactly one command snapshotting the bindings in force at that moment. -/
theorem draw_snapshot_immutable_witness :
    ((limare_uniform_attach demoConfigured "uColor" 4 [1, 0, 0, 1]).1).draws =
      demoConfigured.draws ∧
    ((limare_draw_arrays demoFrameReady 4 0 3).1).draws =
      demoFrameReady.draws ++ [⟨4, 0, 3, currentBindings demoFrameReady⟩] :=
  ⟨draw_snapshot_immutable.1 demoConfigured "uColor" 4 [1, 0, 0, 1],
   draw_snapshot_immutable.2.1 demoFrameReady 4 0 3
     (limare_draw_arrays demoFrameReady 4 0 3).1 (by decide)⟩

/-! ## C10: attribute bindings made while configuring persist into the frame -/

/-- A binding replaced or appended by the Binder is present afterwards. -/
theorem bindingsReplace_mem (bs : List AttributeBinding) (b : AttributeBinding) :
    b ∈ bindingsReplace bs b := by
  unfold bindingsReplace
  by_cases h : bs.any (fun x => x.name == b.name)
  · obtain ⟨x, hx, hxn⟩ := List.any_eq_true.mp h
    rw [if_pos h]
    exact List.mem_map.mpr ⟨x, hx, by simp [hxn]⟩
  · rw [if_neg h]
    simp

/-- C10: binding an attribute by name is valid in the Configuring state
(after link, before frame_new), and the binding remains in effect for draw
calls issued inside the frame opened afterwards without being re-issued:
the draw succeeds and its snapshot contains that binding. -/
theorem attribute_binding_persists (st : LimareState) (n : String) (s : Symbol)
    (et en str pa p f c : Nat)
    (hstate : st.ja_state = .Configuring) (hlink : st.linked = true)
    (hfind : findName st.table n = some s) (ha : s.type = .SYMBOL_ATTRIBUTE) :
    (limare_attribute_pointer st n et en str pa).2 = none ∧
    (limare_frame_new (limare_attribute_pointer st n et en str pa).1).2 = none ∧
    (limare_draw_arrays (limare_frame_new (limare_attribute_pointer st n et en str pa).1).1 p f c).2 = none ∧
    ((limare_draw_arrays (limare_frame_new (limare_attribute_pointer st n et en str pa).1).1 p f c).1).draws =
      [⟨p, f, c, currentBindings (limare_frame_new (limare_attribute_pointer st n et en str pa).1).1⟩] ∧
    (⟨n, et, en, str, pa⟩ : AttributeBinding) ∈
      (currentBindings (limare_frame_new (limare_attribute_pointer st n et en str pa).1).1).attributes := by
  have h1 : limare_attribute_pointer st n et en str pa = ({ st with table := updateSymbol st.table n (fun x => { x with address := some pa, physical := true }), attributes := bindingsReplace st.attributes ⟨n, et, en, str, pa⟩ }, none) := by
    simp [limare_attribute_pointer, hfind, ha]
  have h2 : limare_frame_new (limare_attribute_pointer st n et en str pa).1 = ({ st with table := updateSymbol st.table n (fun x => { x with address := some pa, physical := true }), attributes := bindingsReplace st.attributes ⟨n, et, en, str, pa⟩, ja_state := .FrameOpen, draws := [] }, none) := by
    rw [h1]
    simp [limare_frame_new, hstate]
  have hmem : (⟨n, et, en, str, pa⟩ : AttributeBinding) ∈
      bindingsReplace st.attributes ⟨n, et, en, str, pa⟩ := bindingsReplace_mem _ _
  have hne : bindingsReplace st.attributes ⟨n, et, en, str, pa⟩ ≠ [] :=
    List.ne_nil_of_mem hmem
  have h3 : limare_draw_arrays (limare_frame_new (limare_attribute_pointer st n et en str pa).1).1 p f c = ({ st with table := updateSymbol st.table n (fun x => { x with address := some pa, physical := true }), attributes := bindingsReplace st.attributes ⟨n, et, en, str, pa⟩, ja_state := .FrameOpen, draws := [⟨p, f, c, currentBindings ({ st with table := updateSymbol st.table n (fun x => { x with address := some pa, physical := true }), attributes := bindingsReplace st.attributes ⟨n, et, en, str, pa⟩, ja_state := .FrameOpen, draws := [] } : LimareState)⟩] }, none) := by
    rw [h2]
    simp [limare_draw_arrays, hlink, hne]
  refine ⟨by rw [h1], by rw [h2], by rw [h3], ?_, ?_⟩
  · rw [h3, h2]
  · rw [h2]
    exact hmem

/-- Witness for C10: binding aPosition in the configured demo context, then
opening the frame and drawing the triangle. -/
theorem attribute_binding_persists_witness :
    (limare_attribute_pointer demoConfigured "aPosition" 0 3 7 4096).2 = none ∧
    (limare_frame_new (limare_attribute_pointer demoConfigured "aPosition" 0 3 7 4096).1).2 = none ∧
    (limare_draw_arrays (limare_frame_new (limare_attribute_pointer demoConfigured "aPosition" 0 3 7 4096).1).1 4 0 3).2 = none ∧
    ((limare_draw_arrays (limare_frame_new (limare_attribute_pointer demoConfigured "aPosition" 0 3 7 4096).1).1 4 0 3).1).draws =
      [⟨4, 0, 3, currentBindings (limare_frame_new (limare_attribute_pointer demoConfigured "aPosition" 0 3 7 4096).1).1⟩] ∧
    (⟨"aPosition", 0, 3, 7, 4096⟩ : AttributeBinding) ∈
      (currentBindings (limare_frame_new (limare_attribute_pointer demoConfigured "aPosition" 0 3 7 4096).1).1).attributes :=
  attribute_binding_persists demoConfigured "aPosition" aPositionSym 0 3 7 4096 4 0 3
    (by decide) (by decide) (by decide) rfl

/-! ## C4: link tie-break and uniform merge -/

theorem exceptBind_ok {α β : Type} {x : Except DriverError α}
    {g : α → Except DriverError β} {m : β} (h : (x >>= g) = .ok m) :
    ∃ t, x = .ok t ∧ g t = .ok m := by
  cases x with
  | error e =>
    exfalso
    simp only [bind, Except.bind] at h
    exact absurd h (by simp)
  | ok t =>
    refine ⟨t, rfl, ?_⟩
    simpa only [bind, Except.bind] using h

theorem mergeSymbol_mem {a b u : Symbol} (h : mergeSymbol a b = .ok u) :
    u = a ∨ u = b := by
  unfold mergeSymbol at h
  split_ifs at h
  · exact Or.inl (by cases h; rfl)
  · exact Or.inr (by cases h; rfl)
  · exact Or.inl (by cases h; rfl)

theorem mergeSymbol_attr_varying {a v : Symbol}
    (ha : a.type = .SYMBOL_ATTRIBUTE) (hv : v.type = .SYMBOL_VARYING) :
    mergeSymbol a v = .ok a ∧ mergeSymbol v a = .ok a := by
  constructor <;> simp [mergeSymbol, ha, hv]

theorem mergeSymbol_error {a b : Symbol} {e : DriverError}
    (h : mergeSymbol a b = .error e) : e = .LinkError := by
  unfold mergeSymbol at h
  split_ifs at h
  · cases h; rfl

theorem linkInsert_error {t : SymbolTable} {f : Symbol} {e : DriverError}
    (h : linkInsert t f = .error e) : e = .LinkError := by
  cases hf : findName t f.name with
  | none =>
    simp only [linkInsert, hf] at h
    exact absurd h (by simp)
  | some a =>
    cases hm : mergeSymbol a f with
    | ok u =>
      simp only [linkInsert, hf, hm] at h
      exact absurd h (by simp)
    | error e' =>
      simp only [linkInsert, hf, hm, Except.error.injEq] at h
      subst h
      exact mergeSymbol_error hm

theorem linkInsert_preserve {t t2 : SymbolTable} {f : Symbol} {X : String}
    (h : linkInsert t f = .ok t2) (hX : (f.name == X) = false) :
    findName t2 X = findName t X := by
  cases hf : findName t f.name with
  | none =>
    simp only [linkInsert, hf, Except.ok.injEq] at h
    subst h
    cases htX : findName t X with
    | some a => exact findName_append_some _ htX
    | none =>
      rw [findName_append_none _ htX, findName_cons, hX]
      simp [findName]
  | some a =>
    cases hm : mergeSymbol a f with
    | error e' =>
      simp only [linkInsert, hf, hm] at h
      exact absurd h (by simp)
    | ok u =>
      simp only [linkInsert, hf, hm, Except.ok.injEq] at h
      subst h
      have huname : (u.name == f.name) = true := by
        rcases mergeSymbol_mem hm with rfl | rfl
        · simpa using findName_some_name hf
        · simp
      apply findName_updateSymbol_ne t f.name X (fun _ => u) (fun s _ => huname)
      have hfXne : f.name ≠ X := beq_eq_false_iff_ne.mp hX
      exact beq_eq_false_iff_ne.mpr hfXne

theorem link_findName_frozen {fs : SymbolTable} :
    ∀ {vs m : SymbolTable} {X : String}, link vs fs = .ok m →
      (∀ f ∈ fs, (f.name == X) = false) → findName m X = findName vs X := by
  induction fs with
  | nil =>
    intro vs m X h _
    cases h
    rfl
  | cons f rest ih =>
    intro vs m X h hX
    rw [link, List.foldlM_cons] at h
    obtain ⟨t2, h1, h2⟩ := exceptBind_ok h
    have e1 : findName m X = findName t2 X :=
      ih h2 (fun g hg => hX g (List.mem_cons_of_mem f hg))
    have e2 : findName t2 X = findName vs X :=
      linkInsert_preserve h1 (hX f (List.mem_cons_self f rest))
    rw [e1, e2]

theorem link_error_is_LinkError {fs : SymbolTable} :
    ∀ {vs : SymbolTable} {e : DriverError}, link vs fs = .error e →
      e = .LinkError := by
  induction fs with
  | nil => intro vs e h; cases h
  | cons f rest ih =>
    intro vs e h
    rw [link, List.foldlM_cons] at h
    cases h1 : linkInsert vs f with
    | error e' =>
      rw [h1] at h
      simp only [bind, Except.bind] at h
      cases h
      exact linkInsert_error h1
    | ok t2 =>
      rw [h1] at h
      simp only [bind, Except.bind] at h
      exact ih h

theorem link_collision_resolves {vs fs₁ fs₂ m : SymbolTable} {v a u : Symbol}
    {X : String}
    (hvX : findName vs X = some a) (hvn : v.name = X)
    (hmerge : mergeSymbol a v = .ok u)
    (hfs₁ : ∀ f ∈ fs₁, (f.name == X) = false)
    (hfs₂ : ∀ f ∈ fs₂, (f.name == X) = false)
    (hm : link vs (fs₁ ++ v :: fs₂) = .ok m) :
    findName m X = some u := by
  rw [link, List.foldlM_append] at hm
  obtain ⟨t1, h1, h2⟩ := exceptBind_ok hm
  have ht1 : findName t1 X = some a := by
    rw [link_findName_frozen h1 hfs₁, hvX]
  rw [List.foldlM_cons] at h2
  obtain ⟨t2, h3, h4⟩ := exceptBind_ok h2
  have ht1v : findName t1 v.name = some a := by rw [hvn]; exact ht1
  have huname : (u.name == X) = true := by
    rcases mergeSymbol_mem hmerge with rfl | rfl
    · have := findName_some_name ht1
      simpa using this
    · simpa using hvn
  have h3' : t2 = updateSymbol t1 v.name (fun _ => u) := by
    simp only [linkInsert, ht1v, hmerge, Except.ok.injEq] at h3
    exact h3.symm
  have ht2 : findName t2 X = some u := by
    rw [h3', hvn]
    rw [findName_updateSymbol t1 X (fun _ => u) (fun s _ => huname), ht1]
    rfl
  rw [link_findName_frozen h4 hfs₂, ht2]

theorem link_collision_fails {vs fs₁ fs₂ : SymbolTable} {v a : Symbol}
    {X : String}
    (hvX : findName vs X = some a) (hvn : v.name = X)
    (hmerge : mergeSymbol a v = .error .LinkError)
    (hfs₁ : ∀ f ∈ fs₁, (f.name == X) = false) :
    link vs (fs₁ ++ v :: fs₂) = .error .LinkError := by
  cases hres : link vs (fs₁ ++ v :: fs₂) with
  | error e => rw [link_error_is_LinkError hres]
  | ok m =>
    exfalso
    rw [link, List.foldlM_append] at hres
    obtain ⟨t1, h1, h2⟩ := exceptBind_ok hres
    have ht1 : findName t1 X = some a := by
      rw [link_findName_frozen h1 hfs₁, hvX]
    rw [List.foldlM_cons] at h2
    obtain ⟨t2, h3, _⟩ := exceptBind_ok h2
    have ht1v : findName t1 v.name = some a := by rw [hvn]; exact ht1
    simp only [linkInsert, ht1v, hmerge] at h3
    exact absurd h3 (by simp)

/-- Name uniqueness, the stated invariant of every symbol table. -/
def NodupNames (t : SymbolTable) : Prop := (t.map Symbol.name).Nodup

theorem findName_of_mem_nodup {t : SymbolTable} {s : Symbol} {X : String}
    (hn : NodupNames t) (hm : s ∈ t) (hs : s.name = X) : findName t X = some s := by
  induction t with
  | nil => simp at hm
  | cons x xs ih =>
    rw [NodupNames, List.map_cons, List.nodup_cons] at hn
    rcases List.mem_cons.mp hm with rfl | hm'
    · rw [findName_cons]
      simp [hs]
    · have hx : (x.name == X) = false := by
        apply beq_eq_false_iff_ne.mpr
        intro hxX
        apply hn.1
        rw [hxX, ← hs]
        exact List.mem_map_of_mem Symbol.name hm'
      rw [findName_cons, hx]
      simpa using ih hn.2 hm'

theorem mem_split_names {fs : SymbolTable} {v : Symbol}
    (hn : NodupNames fs) (hv : v ∈ fs) :
    ∃ fs₁ fs₂, fs = fs₁ ++ v :: fs₂ ∧
      (∀ f ∈ fs₁, (f.name == v.name) = false) ∧
      (∀ f ∈ fs₂, (f.name == v.name) = false) := by
  obtain ⟨fs₁, fs₂, rfl⟩ := List.append_of_mem hv
  rw [NodupNames, List.map_append, List.map_cons, List.nodup_append] at hn
  obtain ⟨_, h2, h3⟩ := hn
  rw [List.nodup_cons] at h2
  refine ⟨fs₁, fs₂, rfl, ?_, ?_⟩
  · intro f hf
    apply beq_eq_false_iff_ne.mpr
    intro hfv
    exact h3 (List.mem_map_of_mem Symbol.name hf)
      (by rw [hfv]; exact List.mem_cons_self _ _)
  · intro f hf
    apply beq_eq_false_iff_ne.mpr
    intro hfv
    apply h2.1
    rw [← hfv]
    exact List.mem_map_of_mem Symbol.name hf

/-- C4: on a name collision between stages, an Attribute always wins over a
Varying: the merged table resolves the name to the Attribute symbol.  On a
Uniform/Uniform collision the merge succeeds exactly when the footprints
match (the merged table then resolves the name to the vertex-stage symbol),
and otherwise linking fails with `LinkError`. -/
theorem link_tiebreak_and_uniform_merge :
    (∀ (vs fs m : SymbolTable) (X : String) (a v : Symbol),
      NodupNames vs → NodupNames fs →
      a.name = X → a.type = .SYMBOL_ATTRIBUTE →
      v.name = X → v.type = .SYMBOL_VARYING →
      ((a ∈ vs ∧ v ∈ fs) ∨ (v ∈ vs ∧ a ∈ fs)) →
      link vs fs = .ok m →
      findName m X = some a ∧ a.type = .SYMBOL_ATTRIBUTE) ∧
    (∀ (vs fs : SymbolTable) (X : String) (u1 u2 : Symbol),
      NodupNames vs → NodupNames fs →
      u1 ∈ vs → u2 ∈ fs → u1.name = X → u2.name = X →
      u1.type = .SYMBOL_UNIFORM → u2.type = .SYMBOL_UNIFORM →
      (footprint u1 = footprint u2 →
        mergeSymbol u1 u2 = .ok u1 ∧
        ∀ m, link vs fs = .ok m → findName m X = some u1) ∧
      (footprint u1 ≠ footprint u2 →
        mergeSymbol u1 u2 = .error .LinkError ∧
        link vs fs = .error .LinkError)) := by
  constructor
  · intro vs fs m X a v hnvs hnfs haX hat hvX hvt hmem hm
    subst hvX
    rcases hmem with ⟨hav, hvf⟩ | ⟨hvv, haf⟩
    · have hvsX : findName vs v.name = some a := findName_of_mem_nodup hnvs hav haX
      obtain ⟨fs₁, fs₂, rfl, hf₁, hf₂⟩ := mem_split_names hnfs hvf
      have hmerge := (mergeSymbol_attr_varying hat hvt).1
      exact ⟨link_collision_resolves hvsX rfl hmerge hf₁ hf₂ hm, hat⟩
    · have hvsX : findName vs v.name = some v := findName_of_mem_nodup hnvs hvv rfl
      obtain ⟨fs₁, fs₂, rfl, hf₁, hf₂⟩ := mem_split_names hnfs haf
      simp only [haX] at hf₁ hf₂
      have hmerge := (mergeSymbol_attr_varying hat hvt).2
      exact ⟨link_collision_resolves hvsX haX hmerge hf₁ hf₂ hm, hat⟩
  · intro vs fs X u1 u2 hnvs hnfs hu1 hu2 h1X h2X h1t h2t
    subst h2X
    have hvsX : findName vs u2.name = some u1 := findName_of_mem_nodup hnvs hu1 h1X
    obtain ⟨fs₁, fs₂, rfl, hf₁, hf₂⟩ := mem_split_names hnfs hu2
    constructor
    · intro hfp
      have hmerge : mergeSymbol u1 u2 = .ok u1 := by
        simp [mergeSymbol, h1t, h2t, hfp]
      exact ⟨hmerge, fun m hm => link_collision_resolves hvsX rfl hmerge hf₁ hf₂ hm⟩
    · intro hfp
      have hmerge : mergeSymbol u1 u2 = .error .LinkError := by
        simp [mergeSymbol, h1t, h2t, hfp]
      exact ⟨hmerge, link_collision_fails hvsX rfl hmerge hf₁⟩

/-- A stage table with an Attribute named X. -/
def aXsym : Symbol := symbol_create "X" .SYMBOL_ATTRIBUTE 4 4 1 [] false

/-- A stage table with a Varying named X. -/
def vXsym : Symbol := symbol_create "X" .SYMBOL_VARYING 4 4 1 [] false

/-- A vertex-stage Uniform named U, footprint 16. -/
def u1sym : Symbol := symbol_create "U" .SYMBOL_UNIFORM 4 4 1 [] false

/-- A fragment-stage Uniform named U, also footprint 16. -/
def u2sym : Symbol := symbol_create "U" .SYMBOL_UNIFORM 4 2 2 [] false

/-- Witness for C4: linking an Attribute X against a Varying X resolves X to
the Attribute, and a Uniform/Uniform collision with matching footprints
merges to the vertex-stage symbol. -/
theorem link_tiebreak_and_uniform_merge_witness :
    (findName [aXsym] "X" = some aXsym ∧ aXsym.type = .SYMBOL_ATTRIBUTE) ∧
    (mergeSymbol u1sym u2sym = .ok u1sym ∧
      ∀ m, link [u1sym] [u2sym] = .ok m → findName m "U" = some u1sym) :=
  ⟨link_tiebreak_and_uniform_merge.1 [aXsym] [vXsym] [aXsym] "X" aXsym vXsym
      (by simp [NodupNames]) (by simp [NodupNames]) rfl rfl rfl rfl
      (Or.inl ⟨by decide, by decide⟩) rfl,
   (link_tiebreak_and_uniform_merge.2 [u1sym] [u2sym] "U" u1sym u2sym
      (by simp [NodupNames]) (by simp [NodupNames]) (by decide) (by decide)
      rfl rfl rfl rfl).1 (by decide)⟩

/-! ## C9: the physical flag is never set on Varying symbols -/

/-- The C9 invariant on a table: no Varying symbol carries the physical
flag. -/
def VaryingPhysicalClear (t : SymbolTable) : Prop :=
  ∀ s ∈ t, s.type = .SYMBOL_VARYING → s.physical = false

/-- Stage tables handed to link satisfy the invariant; freshly created
symbols do (their physical flag starts clear), so any table built from
`symbol_create` output qualifies. -/
def CmdTablesClear : Cmd → Prop
  | .link vs fs => VaryingPhysicalClear vs ∧ VaryingPhysicalClear fs
  | _ => True

theorem linkInsert_mem {t t2 : SymbolTable} {f : Symbol}
    (h : linkInsert t f = .ok t2) : ∀ s ∈ t2, s ∈ t ∨ s = f := by
  intro s hs
  cases hf : findName t f.name with
  | none =>
    simp only [linkInsert, hf, Except.ok.injEq] at h
    subst h
    rcases List.mem_append.mp hs with h' | h'
    · exact Or.inl h'
    · exact Or.inr (List.mem_singleton.mp h')
  | some a =>
    cases hm : mergeSymbol a f with
    | error e' =>
      simp only [linkInsert, hf, hm] at h
      exact absurd h (by simp)
    | ok u =>
      simp only [linkInsert, hf, hm, Except.ok.injEq] at h
      subst h
      rcases mem_updateSymbol hs with h' | ⟨s₀, hs₀, rfl⟩
      · exact Or.inl h'
      · rcases mergeSymbol_mem hm with rfl | rfl
        · exact Or.inl (findName_some_mem hf)
        · exact Or.inr rfl

theorem link_mem {fs : SymbolTable} :
    ∀ {vs m : SymbolTable}, link vs fs = .ok m →
      ∀ s ∈ m, s ∈ vs ∨ s ∈ fs := by
  induction fs with
  | nil =>
    intro vs m h s hs
    cases h
    exact Or.inl hs
  | cons f rest ih =>
    intro vs m h s hs
    rw [link, List.foldlM_cons] at h
    obtain ⟨t2, h1, h2⟩ := exceptBind_ok h
    rcases ih h2 s hs with h' | h'
    · rcases linkInsert_mem h1 s h' with h'' | rfl
      · exact Or.inl h''
      · exact Or.inr (List.mem_cons_self _ _)
    · exact Or.inr (List.mem_cons_of_mem f h')

theorem step_preserves_clear (st : LimareState) (c : Cmd)
    (hst : VaryingPhysicalClear st.table) (hc : CmdTablesClear c) :
    VaryingPhysicalClear ((step st c).1).table := by
  cases c with
  | state_setup w h cl =>
    cases hja : st.ja_state <;> simpa [step, limare_state_setup, hja] using hst
  | link vs fs =>
    cases hl : link vs fs with
    | ok m =>
      intro s hs hvar
      simp only [step, limare_link, hl] at hs
      rcases link_mem hl s hs with h' | h'
      · exact hc.1 s h' hvar
      · exact hc.2 s h' hvar
    | error e => simpa [step, limare_link, hl] using hst
  | attribute_pointer n et en str pa =>
    cases hf : findName st.table n with
    | none => simpa [step, limare_attribute_pointer, hf] using hst
    | some s₀ =>
      by_cases hty : s₀.type = .SYMBOL_ATTRIBUTE
      · intro s hs hvar
        simp only [step, limare_attribute_pointer, hf, hty, if_pos] at hs
        rcases mem_updateSymbol hs with h' | ⟨s₁, hs₁, rfl⟩
        · exact hst s h' hvar
        · rw [hf] at hs₁
          cases hs₁
          exact absurd hvar (by simp [hty])
      · simpa [step, limare_attribute_pointer, hf, hty] using hst
  | frame_new =>
    by_cases hja : st.ja_state = .Configuring <;>
      simpa [step, limare_frame_new, hja] using hst
  | uniform_attach n en d =>
    cases hf : findName st.table n with
    | none => simpa [step, limare_uniform_attach, hf] using hst
    | some s₀ =>
      by_cases hty : s₀.type ≠ .SYMBOL_UNIFORM
      · simpa [step, limare_uniform_attach, hf, hty] using hst
      · by_cases hen : en ≠ s₀.element_entries
        · simpa [step, limare_uniform_attach, hf, hty, hen] using hst
        · intro s hs hvar
          simp only [step, limare_uniform_attach, hf, if_neg hty, if_neg hen] at hs
          rcases mem_updateSymbol hs with h' | ⟨s₁, hs₁, rfl⟩
          · exact hst s h' hvar
          · exact hst s₁ (findName_some_mem hs₁) (by simpa using hvar)
  | draw_arrays p f c =>
    by_cases h1 : st.ja_state ≠ .FrameOpen
    · simpa [step, limare_draw_arrays, h1] using hst
    · by_cases h2 : st.linked = false ∨ st.attributes = []
      · simpa [step, limare_draw_arrays, h1, h2] using hst
      · simpa [step, limare_draw_arrays, h1, h2] using hst
  | frame_flush comp =>
    by_cases h1 : st.ja_state ≠ .FrameOpen
    · simpa [step, limare_frame_flush, h1] using hst
    · cases comp <;> simpa [step, limare_frame_flush, h1] using hst
  | buffer_swap =>
    by_cases h1 : st.ja_state = .Idle <;>
      simpa [step, limare_buffer_swap, h1] using hst

theorem run_preserves_clear (cs : List Cmd) :
    ∀ st : LimareState, VaryingPhysicalClear st.table →
      (∀ c ∈ cs, CmdTablesClear c) →
      VaryingPhysicalClear (run st cs).table := by
  induction cs with
  | nil => intro st h _; exact h
  | cons c rest ih =>
    intro st h hc
    have hrun : run st (c :: rest) = run ((step st c).1) rest := rfl
    rw [hrun]
    exact ih _ (step_preserves_clear st c h (hc c (List.mem_cons_self c rest)))
      (fun d hd => hc d (List.mem_cons_of_mem c hd))

/-- C9: a freshly created symbol's physical flag is clear, and in every
context reached by a sequence of driver calls whose linked stage tables
respect the invariant (as tables of freshly created symbols do), a Varying
symbol never has the physical flag set: the flag can only be set on the
kinds consumed directly by fixed-function stages (it is in fact only set on
Attributes, by attribute binding). -/
theorem varying_never_physical :
    (∀ (name : String) (ty : symbol_type) (es ee cnt : Nat) (d : List Nat)
      (cp : Bool), (symbol_create name ty es ee cnt d cp).physical = false) ∧
    (∀ cs : List Cmd, (∀ c ∈ cs, CmdTablesClear c) →
      ∀ s ∈ (run limare_init cs).table,
        (s.type = .SYMBOL_VARYING → s.physical = false) ∧
        (s.physical = true →
          s.type = .SYMBOL_ATTRIBUTE ∨ s.type = .SYMBOL_UNIFORM)) := by
  constructor
  · intro name ty es ee cnt d cp
    rfl
  · intro cs hc s hs
    have hinit : VaryingPhysicalClear limare_init.table := by
      intro s hs
      simp [limare_init] at hs
    have hinv : VaryingPhysicalClear (run limare_init cs).table :=
      run_preserves_clear cs limare_init hinit hc
    refine ⟨hinv s hs, ?_⟩
    intro hp
    cases hty : s.type with
    | SYMBOL_UNIFORM => exact Or.inr rfl
    | SYMBOL_ATTRIBUTE => exact Or.inl rfl
    | SYMBOL_VARYING => exact absurd hp (by rw [hinv s hs hty]; simp)

/-- The link command of the demo trace respects the invariant, as do the
trivially unconstrained remaining commands. -/
theorem demoTrace_tables_clear : ∀ c ∈ demoTrace, CmdTablesClear c := by
  intro c hc
  simp only [demoTrace, List.mem_cons, List.not_mem_nil, or_false] at hc
  rcases hc with rfl | rfl | rfl | rfl | rfl | rfl | rfl | rfl | rfl
  · trivial
  · refine ⟨?_, ?_⟩ <;>
    · intro s hs _
      rw [List.mem_singleton] at hs
      subst hs
      rfl
  · trivial
  · trivial
  · trivial
  · trivial
  · trivial
  · trivial
  · trivial

/-- Witness for C9: a fresh Varying has the flag clear, and every symbol in
the context reached by the demo trace satisfies both halves of the
invariant. -/
theorem varying_never_physical_witness :
    (symbol_create "vTexCoord" .SYMBOL_VARYING 4 2 1 [] false).physical = false ∧
    ∀ s ∈ (run limare_init demoTrace).table,
      (s.type = .SYMBOL_VARYING → s.physical = false) ∧
      (s.physical = true → s.type = .SYMBOL_ATTRIBUTE ∨ s.type = .SYMBOL_UNIFORM) :=
  ⟨varying_never_physical.1 "vTexCoord" .SYMBOL_VARYING 4 2 1 [] false,
   varying_never_physical.2 demoTrace demoTrace_tables_clear⟩

end LimaDriver
